import Mathlib

/-!
Shallow embedding of the `chippity` CHIP-8 virtual machine core
(`src/chip8/mod.rs`, `src/chip8/instruction.rs`, `src/emulator.rs` for the
`Signal` enum), together with theorems settling the specification claims.

Machine integers are modelled as `Nat` with explicit `% 2^w` at the points
where the Rust code wraps (`wrapping_add`, `overflowing_add`, `u8`/`u16`
casts).  Fallible operations (Rust panics: slice/array index out of bounds,
`expect` on an empty stack, explicit `panic!`-style aborts, unrecognized
opcodes) are modelled with `Option`, `none` meaning the process aborts.
-/

namespace Chippity

/-- `emulator::Signal` (src/emulator.rs). -/
inductive Signal where
  | none
  | programExit
  | newInputs
  | refreshDisplay
  | soundAudio
deriving DecidableEq, Repr

/-! ## Instruction decoder (src/chip8/instruction.rs)

The Rust code uses a `modular_bitfield` struct over a `u16` with fields,
declared lsb → msb: `n3 : B4` (bits 0-3), `n2 : B4` (bits 4-7),
`n1 : B4` (bits 8-11), `n0 : B4` (bits 12-15).  We model the bitfield by
its 16-bit backing word; the field getters extract 4-bit slices. -/

structure Instruction where
  word : Nat
deriving DecidableEq, Repr

namespace Instruction

/-- `Instruction::from_bytes([lb, hb])`: the backing word is assembled
little-endian from the two bytes (the `u8` arguments are reduced mod 256). -/
def from_bytes (lb hb : Nat) : Instruction :=
  ⟨(hb % 256) * 256 + lb % 256⟩

/-- bitfield getter `n3()`: bits 0-3 of the backing word. -/
def n3 (i : Instruction) : Nat := i.word &&& (2 ^ 4 - 1)

/-- bitfield getter `n2()`: bits 4-7 of the backing word. -/
def n2 (i : Instruction) : Nat := (i.word >>> 4) &&& (2 ^ 4 - 1)

/-- bitfield getter `n1()`: bits 8-11 of the backing word. -/
def n1 (i : Instruction) : Nat := (i.word >>> 8) &&& (2 ^ 4 - 1)

/-- bitfield getter `n0()`: bits 12-15 of the backing word. -/
def n0 (i : Instruction) : Nat := (i.word >>> 12) &&& (2 ^ 4 - 1)

/-- `get_o`: opcode header, uppermost 4 bits. -/
def get_o (i : Instruction) : Nat := i.n0

/-- `get_nnn`: lowest 12 bits, `(n1 << 8) | (n2 << 4) | n3`. -/
def get_nnn (i : Instruction) : Nat := i.n1 <<< 8 ||| i.n2 <<< 4 ||| i.n3

/-- `get_nn`: lowest 8 bits, `(n2 << 4) | n3`. -/
def get_nn (i : Instruction) : Nat := i.n2 <<< 4 ||| i.n3

/-- `get_n`: lowest 4 bits. -/
def get_n (i : Instruction) : Nat := i.n3

/-- `get_x`: lower 4 bits of the high byte. -/
def get_x (i : Instruction) : Nat := i.n1

/-- `get_y`: upper 4 bits of the low byte. -/
def get_y (i : Instruction) : Nat := i.n2

end Instruction

/-! ## VM state (src/chip8/mod.rs) -/

def RAM_SIZE : Nat := 4096
def FONT_START : Nat := 0x000
def ROM_START : Nat := 0x200
def ROM_END : Nat := 0xFFF
def NUM_DATA_REGS : Nat := 16
def PC_STEP : Nat := 2
def FONT_PX_HEIGHT : Nat := 5
def DISPLAY_WIDTH : Nat := 64
def DISPLAY_HEIGHT : Nat := 32
def NUM_KEYS : Nat := 16

/-- The `Chip8` struct.  Arrays and bit-arrays are modelled as total
functions from index; the call stack (a `SmallVec` used LIFO: `push`
appends, `pop` removes the last pushed element) is modelled as a list
whose head is the most recently pushed address. -/
structure Chip8 where
  memory : Nat → Nat
  pc : Nat
  stack : List Nat
  i_reg : Nat
  v_reg : Nat → Nat
  display_bus : Nat → Bool
  input_bus : Nat → Bool
  delay_timer : Nat
  sound_timer : Nat

/-- Pointwise update of an array modelled as a function. -/
def updFn {α : Type} (f : Nat → α) (i : Nat) (a : α) : Nat → α :=
  fun j => if j = i then a else f j

/-- Read `self.memory[a]`; a Rust index out of bounds aborts (`none`). -/
def memRead (s : Chip8) (a : Nat) : Option Nat :=
  if a < RAM_SIZE then some (s.memory a) else none

/-- Write `self.memory[a] = v`; a Rust index out of bounds aborts (`none`). -/
def memWrite (s : Chip8) (a v : Nat) : Option Chip8 :=
  if a < RAM_SIZE then some { s with memory := updFn s.memory a v } else none

namespace Chip8

/-- `Chip8::load_rom`: aborts (`panic!("Insufficient memory: invalid ROM")`)
when `data.len() > ROM_END - ROM_START`, otherwise copies the ROM bytes to
`memory[ROM_START .. ROM_START + data.len()]`. -/
def load_rom (s : Chip8) (data : List Nat) : Option Chip8 :=
  if data.length > ROM_END - ROM_START then none
  else some { s with
    memory := fun a =>
      if ROM_START ≤ a ∧ a < ROM_START + data.length then data.getD (a - ROM_START) 0
      else s.memory a }

/-- `Chip8::tick_timers`: decrement each timer if positive; report
`SoundAudio` exactly in the branch where `sound_timer` was positive. -/
def tick_timers (s : Chip8) : Chip8 × Signal :=
  let s1 := if s.delay_timer > 0 then { s with delay_timer := s.delay_timer - 1 } else s
  if s1.sound_timer > 0 then
    ({ s1 with sound_timer := s1.sound_timer - 1 }, Signal.soundAudio)
  else
    (s1, Signal.none)

/-- `Chip8::fetch_instruction`: abort (`panic!("Segfault: invalid ROM")`)
unless `ROM_START ≤ pc < ROM_END`; read the two bytes big-endian and build
the `Instruction` via `from_bytes([lb, hb])`. -/
def fetch_instruction (s : Chip8) : Option Instruction :=
  if s.pc < ROM_START ∨ s.pc ≥ ROM_END then none
  else
    let hb := s.memory s.pc
    let lb := s.memory (s.pc + 1)
    some (Instruction.from_bytes lb hb)

end Chip8

/-! ## DXYN draw helpers

The Rust draw loop iterates over sprite rows (`for (dy, byte) in
sprite.iter().enumerate()`) and, inside, over the 8 bits of the row byte
in `Msb0` order (`for (dx, bit) in byte.view_bits::<Msb0>().iter()...`),
each step doing
  `v_reg[0xF] |= (display_bit & bit) as u8;`
  `display_bus.set(idx, display_bit ^ bit);`
with `idx = ((Vy + dy) % 32) * 64 + (Vx + dx) % 64`.  We model the doubly
nested loop as a single left fold over the flattened list of
(display index, sprite bit) pairs in loop order, carrying the display and
the collision flag (the flag is carried as `Bool`; the Rust `u8` flag only
ever holds 0 or 1 and `|=` on such values is boolean or). -/

/-- The 8 bits of a byte, most significant first (`Msb0`). -/
def byteBits (b : Nat) : List Bool :=
  [decide (b / 128 % 2 = 1), decide (b / 64 % 2 = 1), decide (b / 32 % 2 = 1),
   decide (b / 16 % 2 = 1), decide (b / 8 % 2 = 1), decide (b / 4 % 2 = 1),
   decide (b / 2 % 2 = 1), decide (b % 2 = 1)]

/-- (index, bit) pairs produced by the inner loop for one sprite row:
`coord_y` is the already-wrapped display row. -/
def rowPairs (b cx coordy : Nat) : List (Nat × Bool) :=
  List.zipWith (fun dx bit => (coordy * DISPLAY_WIDTH + (cx + dx) % DISPLAY_WIDTH, bit))
    (List.range 8) (byteBits b)

/-- (index, bit) pairs of the whole sprite in loop order; `dy` is the row
counter of the outer `enumerate`. -/
def spritePairs : List Nat → Nat → Nat → Nat → List (Nat × Bool)
  | [], _, _, _ => []
  | b :: bs, dy, cx, cy =>
      rowPairs b cx ((cy + dy) % DISPLAY_HEIGHT) ++ spritePairs bs (dy + 1) cx cy

/-- One iteration of the draw loop body on (display, collision flag). -/
def drawStep (st : (Nat → Bool) × Bool) (p : Nat × Bool) : (Nat → Bool) × Bool :=
  (updFn st.1 p.1 (xor (st.1 p.1) p.2), st.2 || (st.1 p.1 && p.2))

/-- The whole draw loop. -/
def drawRun (ps : List (Nat × Bool)) (st : (Nat → Bool) × Bool) : (Nat → Bool) × Bool :=
  ps.foldl drawStep st

/-! ## exec_instruction (src/chip8/mod.rs)

`exec_instruction` matches on `(get_o, get_x, get_y, get_n)`; we render the
match arms, in source order, as a decidable `if`-chain producing
`(new state, incr_pc, status)`, and apply the common
`if incr_pc { pc += PC_STEP }` postlude afterwards, exactly as the source
does.  The two uses of `fastrand` (`CXNN` and `FX0A`) become explicit
oracle parameters `randByte` (a random `u8`) and `randKey`
(`fastrand::usize(0..NUM_KEYS)`). -/

/-- `Iterator::position` over a list of key-state bits: index of the first
`true`, if any. -/
def position : List Bool → Option Nat
  | [] => Option.none
  | b :: bs => if b then some 0 else (position bs).map (· + 1)

/-- The 16 key-state bits of `input_bus` as a list, index order. -/
def keyList (s : Chip8) : List Bool := (List.range NUM_KEYS).map s.input_bus

/-- The `FX55` register-dump loop: `for offset in 0..=x { memory[I + offset] = V[offset] }`. -/
def storeRegs (base : Nat) (offs : List Nat) (s : Chip8) : Option Chip8 :=
  offs.foldlM (fun st off => memWrite st (base + off) (st.v_reg off)) s

/-- The `FX65` register-load loop: `for offset in 0..=x { V[offset] = memory[I + offset] }`. -/
def loadRegs (base : Nat) (offs : List Nat) (s : Chip8) : Option Chip8 :=
  offs.foldlM
    (fun st off => (memRead st (base + off)).map
      (fun b => { st with v_reg := updFn st.v_reg off b })) s

namespace Chip8

/-- The `match` arms of `exec_instruction`, in source order; produces the
mutated state, the `incr_pc` flag, and the I/O `status`.  `none` models a
process abort (explicit `panic!`/`expect`, or an out-of-bounds index). -/
def exec_arms (s : Chip8) (instr : Instruction) (randByte randKey : Nat) :
    Option (Chip8 × Bool × Signal) :=
  let o := instr.get_o
  let x := instr.get_x
  let y := instr.get_y
  let n := instr.get_n
  -- 00E0 - CLRS
  if o = 0x0 ∧ x = 0x0 ∧ y = 0xE ∧ n = 0x0 then
    some ({ s with display_bus := fun _ => false }, true, Signal.refreshDisplay)
  -- 00EE - RET: `stack.pop().expect(..)` aborts on an empty stack
  else if o = 0x0 ∧ x = 0x0 ∧ y = 0xE ∧ n = 0xE then
    match s.stack with
    | [] => Option.none
    | ret_addr :: rest => some ({ s with pc := ret_addr, stack := rest }, true, Signal.none)
  -- 0NNN - SYSC addr: logged to stderr, otherwise a no-op
  else if o = 0x0 then
    some (s, true, Signal.none)
  -- 1NNN - JMP addr
  else if o = 0x1 then
    some ({ s with pc := instr.get_nnn }, false, Signal.none)
  -- 2NNN - CALL addr
  else if o = 0x2 then
    some ({ s with stack := s.pc :: s.stack, pc := instr.get_nnn }, false, Signal.none)
  -- 3XNN - SKE Vx, byte
  else if o = 0x3 then
    some (if s.v_reg x = instr.get_nn then { s with pc := (s.pc + PC_STEP) % 65536 } else s,
      true, Signal.none)
  -- 4XNN - SKNE Vx, byte
  else if o = 0x4 then
    some (if s.v_reg x ≠ instr.get_nn then { s with pc := (s.pc + PC_STEP) % 65536 } else s,
      true, Signal.none)
  -- 5XY0 - SKE Vx, Vy
  else if o = 0x5 ∧ n = 0x0 then
    some (if s.v_reg x = s.v_reg y then { s with pc := (s.pc + PC_STEP) % 65536 } else s,
      true, Signal.none)
  -- 6XNN - LD Vx, byte
  else if o = 0x6 then
    some ({ s with v_reg := updFn s.v_reg x instr.get_nn }, true, Signal.none)
  -- 7XNN - ADD Vx, byte (`wrapping_add`)
  else if o = 0x7 then
    some ({ s with v_reg := updFn s.v_reg x ((s.v_reg x + instr.get_nn) % 256) },
      true, Signal.none)
  -- 8XY0 - LD Vx, Vy
  else if o = 0x8 ∧ n = 0x0 then
    some ({ s with v_reg := updFn s.v_reg x (s.v_reg y) }, true, Signal.none)
  -- 8XY1 - OR Vx, Vy
  else if o = 0x8 ∧ n = 0x1 then
    some ({ s with v_reg := updFn s.v_reg x (s.v_reg x ||| s.v_reg y) }, true, Signal.none)
  -- 8XY2 - AND Vx, Vy
  else if o = 0x8 ∧ n = 0x2 then
    some ({ s with v_reg := updFn s.v_reg x (s.v_reg x &&& s.v_reg y) }, true, Signal.none)
  -- 8XY3 - XOR Vx, Vy
  else if o = 0x8 ∧ n = 0x3 then
    some ({ s with v_reg := updFn s.v_reg x (s.v_reg x ^^^ s.v_reg y) }, true, Signal.none)
  -- 8XY4 - ADD Vx, Vy; set VF (`overflowing_add`: value wraps mod 256, carry iff sum > 255)
  else if o = 0x8 ∧ n = 0x4 then
    let sum := s.v_reg x + s.v_reg y
    some ({ s with v_reg := updFn (updFn s.v_reg x (sum % 256)) 0xF (if 255 < sum then 1 else 0) },
      true, Signal.none)
  -- 8XY5 - SUB Vx, Vy; set VF (`overflowing_sub`: VF = !borrow)
  else if o = 0x8 ∧ n = 0x5 then
    let vx := (s.v_reg x + 256 - s.v_reg y % 256) % 256
    let no_borrow : Nat := if s.v_reg x < s.v_reg y then 0 else 1
    some ({ s with v_reg := updFn (updFn s.v_reg x vx) 0xF no_borrow }, true, Signal.none)
  -- 8XY6 - SHR Vx; set VF to old lsb
  else if o = 0x8 ∧ n = 0x6 then
    some ({ s with v_reg := updFn (updFn s.v_reg x (s.v_reg x / 2)) 0xF (s.v_reg x % 2) },
      true, Signal.none)
  -- 8XY7 - SUBN Vx, Vy; set VF (`overflowing_sub`: VF = !borrow)
  else if o = 0x8 ∧ n = 0x7 then
    let vx := (s.v_reg y + 256 - s.v_reg x % 256) % 256
    let no_borrow : Nat := if s.v_reg y < s.v_reg x then 0 else 1
    some ({ s with v_reg := updFn (updFn s.v_reg x vx) 0xF no_borrow }, true, Signal.none)
  -- 8XYE - SHL Vx; set VF to old msb
  else if o = 0x8 ∧ n = 0xE then
    let msb := s.v_reg x / 128 % 2
    some ({ s with v_reg := updFn (updFn s.v_reg x (s.v_reg x * 2 % 256)) 0xF msb },
      true, Signal.none)
  -- 9XY0 - SKNE Vx, Vy
  else if o = 0x9 ∧ n = 0x0 then
    some (if s.v_reg x ≠ s.v_reg y then { s with pc := (s.pc + PC_STEP) % 65536 } else s,
      true, Signal.none)
  -- ANNN - LD I, addr
  else if o = 0xA then
    some ({ s with i_reg := instr.get_nnn }, true, Signal.none)
  -- BNNN - JMP V0, addr
  else if o = 0xB then
    some ({ s with pc := (instr.get_nnn + s.v_reg 0x0) % 65536 }, false, Signal.none)
  -- CXNN - RAND Vx, byte
  else if o = 0xC then
    some ({ s with v_reg := updFn s.v_reg x (randByte % 256 &&& instr.get_nn) },
      true, Signal.none)
  -- DXYN - DRAW Vx, Vy, nibble; the sprite slice `memory[I..I+n]` aborts
  -- when its end exceeds the RAM size
  else if o = 0xD then
    if s.i_reg + n ≤ RAM_SIZE then
      let sprite := (List.range n).map (fun k => s.memory (s.i_reg + k))
      let coord := (s.v_reg x, s.v_reg y)
      let res := drawRun (spritePairs sprite 0 coord.1 coord.2) (s.display_bus, false)
      some ({ s with
        display_bus := res.1,
        v_reg := updFn s.v_reg 0xF (if res.2 then 1 else 0) }, true, Signal.refreshDisplay)
    else Option.none
  -- EX9E - SKP Vx: `input_bus[Vx]` aborts when Vx is not a key index
  else if o = 0xE ∧ y = 0x9 ∧ n = 0xE then
    if s.v_reg x < NUM_KEYS then
      some (if s.input_bus (s.v_reg x) then { s with pc := (s.pc + PC_STEP) % 65536 } else s,
        true, Signal.none)
    else Option.none
  -- EXA1 - SKNP Vx
  else if o = 0xE ∧ y = 0xA ∧ n = 0x1 then
    if s.v_reg x < NUM_KEYS then
      some (if s.input_bus (s.v_reg x) then s else { s with pc := (s.pc + PC_STEP) % 65536 },
        true, Signal.none)
    else Option.none
  -- FX07 - LD Vx, DT
  else if o = 0xF ∧ y = 0x0 ∧ n = 0x7 then
    some ({ s with v_reg := updFn s.v_reg x s.delay_timer }, true, Signal.none)
  -- FX0A - LD Vx, K: `input_bus.iter().skip(randKey).position(|k| *k)`
  else if o = 0xF ∧ y = 0x0 ∧ n = 0xA then
    match position ((keyList s).drop randKey) with
    | some k_idx =>
        some ({ s with v_reg := updFn s.v_reg x ((randKey + k_idx) % 256) }, true, Signal.none)
    | Option.none => some (s, false, Signal.none)
  -- FX15 - LD DT, Vx
  else if o = 0xF ∧ y = 0x1 ∧ n = 0x5 then
    some ({ s with delay_timer := s.v_reg x }, true, Signal.none)
  -- FX18 - LD ST, Vx
  else if o = 0xF ∧ y = 0x1 ∧ n = 0x8 then
    some ({ s with sound_timer := s.v_reg x }, true, Signal.none)
  -- FX1E - ADD I, Vx (`wrapping_add` on u16)
  else if o = 0xF ∧ y = 0x1 ∧ n = 0xE then
    some ({ s with i_reg := (s.i_reg + s.v_reg x) % 65536 }, true, Signal.none)
  -- FX29 - LEA I, F(Vx)
  else if o = 0xF ∧ y = 0x2 ∧ n = 0x9 then
    some ({ s with i_reg := FONT_START + s.v_reg x * FONT_PX_HEIGHT }, true, Signal.none)
  -- FX33 - BCD of Vx to memory[I], memory[I+1], memory[I+2]
  else if o = 0xF ∧ y = 0x3 ∧ n = 0x3 then
    let vx := s.v_reg x
    (memWrite s s.i_reg (vx / 100 % 10)).bind (fun s1 =>
      (memWrite s1 (s.i_reg + 1) (vx / 10 % 10)).bind (fun s2 =>
        (memWrite s2 (s.i_reg + 2) (vx % 10)).map (fun s3 => (s3, true, Signal.none))))
  -- FX55 - LD [I..I+x], V0..Vx
  else if o = 0xF ∧ y = 0x5 ∧ n = 0x5 then
    (storeRegs s.i_reg (List.range (x + 1)) s).map (fun s1 => (s1, true, Signal.none))
  -- FX65 - LD V0..Vx, [I..I+x]
  else if o = 0xF ∧ y = 0x6 ∧ n = 0x5 then
    (loadRegs s.i_reg (List.range (x + 1)) s).map (fun s1 => (s1, true, Signal.none))
  -- anything else: `panic!("Encountered unrecognized instruction ...")`
  else Option.none

/-- `Chip8::exec_instruction`: the match arms followed by the
`if incr_pc { self.pc += PC_STEP }` postlude. -/
def exec_instruction (s : Chip8) (instr : Instruction) (randByte randKey : Nat) :
    Option (Chip8 × Signal) :=
  (exec_arms s instr randByte randKey).map (fun r =>
    (if r.2.1 then { r.1 with pc := (r.1.pc + PC_STEP) % 65536 } else r.1, r.2.2))

end Chip8

/-- Parity of the sprite bits a draw XORs into a given display index
(specification device for reasoning about `drawRun`). -/
def maskOf (ps : List (Nat × Bool)) (i : Nat) : Bool :=
  ps.foldr (fun p acc => if p.1 = i then xor p.2 acc else acc) false

/-- The sprite bytes `memory[I .. I+n]` a `DXYN` reads. -/
def spriteOf (s : Chip8) (n : Nat) : List Nat :=
  (List.range n).map (fun k => s.memory (s.i_reg + k))

/-- The (display index, sprite bit) pair list a `DXYN` instruction draws
from state `s`. -/
def drawnPairs (s : Chip8) (instr : Instruction) : List (Nat × Bool) :=
  spritePairs (spriteOf s instr.get_n) 0 (s.v_reg instr.get_x) (s.v_reg instr.get_y)

/-- A concrete all-zero VM state, used to evaluate the model at concrete
inputs. -/
def chip8Zero : Chip8 :=
  { memory := fun _ => 0
    pc := ROM_START
    stack := []
    i_reg := 0
    v_reg := fun _ => 0
    display_bus := fun _ => false
    input_bus := fun _ => false
    delay_timer := 0
    sound_timer := 0 }

/-! # Theorems -/

/-! ## Decoder arithmetic (bridging the bitfield getters to `/`, `%`) -/

theorem and_mask4 (a : Nat) : a &&& (2 ^ 4 - 1) = a % 16 :=
  Nat.and_pow_two_sub_one_eq_mod a 4

theorem shiftOr_low (a b k : Nat) (hb : b < 2 ^ k) : a <<< k ||| b = a * 2 ^ k + b := by
  rw [Nat.shiftLeft_eq, Nat.mul_comm, ← Nat.mul_add_lt_is_or hb a]

theorem n3_eq (i : Instruction) : i.n3 = i.word % 16 := and_mask4 _

theorem n2_eq (i : Instruction) : i.n2 = i.word / 16 % 16 := by
  unfold Instruction.n2
  rw [and_mask4, Nat.shiftRight_eq_div_pow]

theorem n1_eq (i : Instruction) : i.n1 = i.word / 256 % 16 := by
  unfold Instruction.n1
  rw [and_mask4, Nat.shiftRight_eq_div_pow]

theorem n0_eq (i : Instruction) : i.n0 = i.word / 4096 % 16 := by
  unfold Instruction.n0
  rw [and_mask4, Nat.shiftRight_eq_div_pow]

theorem get_o_eq (i : Instruction) : i.get_o = i.word / 4096 % 16 := n0_eq i

theorem get_x_eq (i : Instruction) : i.get_x = i.word / 256 % 16 := n1_eq i

theorem get_y_eq (i : Instruction) : i.get_y = i.word / 16 % 16 := n2_eq i

theorem get_n_eq (i : Instruction) : i.get_n = i.word % 16 := n3_eq i

theorem get_nn_eq (i : Instruction) : i.get_nn = i.word % 256 := by
  unfold Instruction.get_nn
  rw [n3_eq, n2_eq, shiftOr_low _ _ 4 (by have := Nat.mod_lt i.word (y := 16); omega)]
  omega

theorem get_nnn_eq (i : Instruction) : i.get_nnn = i.word % 4096 := by
  unfold Instruction.get_nnn
  rw [Nat.lor_assoc, n3_eq, n2_eq, n1_eq,
    shiftOr_low _ _ 4 (by have := Nat.mod_lt i.word (y := 16); omega)]
  rw [shiftOr_low _ _ 8 (by have h1 := Nat.mod_lt (i.word / 16) (y := 16); omega)]
  omega

theorem get_x_lt (i : Instruction) : i.get_x < 16 := by
  rw [get_x_eq]; exact Nat.mod_lt _ (by omega)

theorem get_n_lt (i : Instruction) : i.get_n < 16 := by
  rw [get_n_eq]; exact Nat.mod_lt _ (by omega)

/-- C9: for every 16-bit instruction word assembled big-endian from two
consecutive memory bytes `hb` (at PC) and `lb` (at PC+1), decoding is total
(the decoder is a plain function with no error state) and the read-only
projections are the claimed bit slices of the word `w = hb*256 + lb`:
`o` = bits 12-15, `x` = bits 8-11, `y` = bits 4-7, `n` = bits 0-3,
`nn` = bits 0-7, `nnn` = bits 0-11. -/
theorem decode_projections (hb lb : Nat) (hhb : hb < 256) (hlb : lb < 256) :
    (Instruction.from_bytes lb hb).get_o = (hb * 256 + lb) / 4096 % 16 ∧
    (Instruction.from_bytes lb hb).get_x = (hb * 256 + lb) / 256 % 16 ∧
    (Instruction.from_bytes lb hb).get_y = (hb * 256 + lb) / 16 % 16 ∧
    (Instruction.from_bytes lb hb).get_n = (hb * 256 + lb) % 16 ∧
    (Instruction.from_bytes lb hb).get_nn = (hb * 256 + lb) % 256 ∧
    (Instruction.from_bytes lb hb).get_nnn = (hb * 256 + lb) % 4096 := by
  have hw : (Instruction.from_bytes lb hb).word = hb * 256 + lb := by
    simp [Instruction.from_bytes, Nat.mod_eq_of_lt hhb, Nat.mod_eq_of_lt hlb]
  refine ⟨?_, ?_, ?_, ?_, ?_, ?_⟩ <;>
    simp [get_o_eq, get_x_eq, get_y_eq, get_n_eq, get_nn_eq, get_nnn_eq, hw]

/-- Witness for C9 at the concrete bytes `hb = 0xD1`, `lb = 0x23`
(word `0xD123`). -/
theorem decode_projections_witness :
    (0xD1 : Nat) < 256 ∧ (0x23 : Nat) < 256 ∧
    ((Instruction.from_bytes 0x23 0xD1).get_o = (0xD1 * 256 + 0x23) / 4096 % 16 ∧
     (Instruction.from_bytes 0x23 0xD1).get_x = (0xD1 * 256 + 0x23) / 256 % 16 ∧
     (Instruction.from_bytes 0x23 0xD1).get_y = (0xD1 * 256 + 0x23) / 16 % 16 ∧
     (Instruction.from_bytes 0x23 0xD1).get_n = (0xD1 * 256 + 0x23) % 16 ∧
     (Instruction.from_bytes 0x23 0xD1).get_nn = (0xD1 * 256 + 0x23) % 256 ∧
     (Instruction.from_bytes 0x23 0xD1).get_nnn = (0xD1 * 256 + 0x23) % 4096) :=
  ⟨by decide, by decide, decode_projections 0xD1 0x23 (by decide) (by decide)⟩

/-! ## C8: fetch_instruction -/

/-- C8: `fetch_instruction` aborts with the fatal invalid-ROM error exactly
when `PC` lies outside `[0x200, 0xFFE]`; inside that range it returns the
big-endian word `memory[PC] * 256 + memory[PC+1]`.  (The Rust function
takes `&self`, so it cannot mutate VM state; the embedding is accordingly a
pure function of the state.)  The hypothesis `hmem` is the `u8` typing
invariant of the memory array. -/
theorem fetch_instruction_spec (s : Chip8) (hmem : ∀ a, s.memory a < 256) :
    (s.pc < 0x200 ∨ 0xFFE < s.pc → s.fetch_instruction = none) ∧
    (0x200 ≤ s.pc → s.pc ≤ 0xFFE →
      s.fetch_instruction = some ⟨s.memory s.pc * 256 + s.memory (s.pc + 1)⟩) := by
  constructor
  · intro h
    simp only [Chip8.fetch_instruction, ROM_START, ROM_END]
    rw [if_pos (by omega)]
  · intro h1 h2
    simp only [Chip8.fetch_instruction, ROM_START, ROM_END]
    rw [if_neg (by omega)]
    simp [Instruction.from_bytes, Nat.mod_eq_of_lt (hmem s.pc),
      Nat.mod_eq_of_lt (hmem (s.pc + 1))]

/-- Witness for C8 at the all-zero state (PC = 0x200, in range). -/
theorem fetch_instruction_spec_witness :
    chip8Zero.fetch_instruction =
      some ⟨chip8Zero.memory chip8Zero.pc * 256 + chip8Zero.memory (chip8Zero.pc + 1)⟩ :=
  (fetch_instruction_spec chip8Zero (fun _ => by simp [chip8Zero])).2 (by decide) (by decide)

/-! ## C1: load_rom size bound (code bug: off-by-one at exactly 3584 bytes)

The program area `0x200 ..= 0xFFF` holds `0xFFF - 0x200 + 1 = 3584` bytes,
and the source's own comment asserts `ROM_END == RAM_SIZE`; but the guard
`rom_size > (ROM_END - ROM_START)` compares against `0xFFF - 0x200 = 3583`,
so a 3584-byte ROM that would exactly fit is rejected. -/

/-- C1 (evaluation at the failing input): a ROM of exactly 3584 bytes is
rejected by `load_rom` with the fatal load error, while a 3583-byte ROM
loads successfully — the spec says the bound is 3584 inclusive. -/
theorem load_rom_off_by_one :
    chip8Zero.load_rom (List.replicate 3584 0) = none ∧
    (chip8Zero.load_rom (List.replicate 3583 0)).isSome = true := by
  have h1 : (List.replicate 3584 (0 : Nat)).length = 3584 := List.length_replicate _ _
  have h2 : (List.replicate 3583 (0 : Nat)).length = 3583 := List.length_replicate _ _
  constructor
  · unfold Chip8.load_rom
    rw [if_pos (by rw [h1]; norm_num [ROM_END, ROM_START])]
  · unfold Chip8.load_rom
    rw [if_neg (by rw [h2]; norm_num [ROM_END, ROM_START])]
    rfl

/-! ## C2: tick_timers -/

/-- C2 counterexample: at `sound_timer = 1` the code returns the
tone-sounding signal although `sound_timer` is 0 after the decrement, so
the claimed "signal iff `sound_timer > 0` after the decrement" is false. -/
theorem tick_timers_boundary :
    ¬ ((({ chip8Zero with sound_timer := 1 } : Chip8).tick_timers.2 = Signal.soundAudio) ↔
       0 < ({ chip8Zero with sound_timer := 1 } : Chip8).tick_timers.1.sound_timer) := by
  decide

/-- C2 (amended): `tick_timers` decrements each timer by exactly 1 when it
is positive and leaves it at 0 otherwise (never negative — in `Nat`,
`t - 1` expresses exactly this), and returns the tone-sounding signal iff
`sound_timer > 0` **before** the decrement. -/
theorem tick_timers_spec (s : Chip8) :
    s.tick_timers.1.delay_timer = s.delay_timer - 1 ∧
    s.tick_timers.1.sound_timer = s.sound_timer - 1 ∧
    (s.tick_timers.2 = Signal.soundAudio ↔ 0 < s.sound_timer) := by
  unfold Chip8.tick_timers
  by_cases hd : s.delay_timer > 0 <;> by_cases hs : s.sound_timer > 0 <;>
    simp [hd, hs] <;> omega

/-- Witness for C2's amended theorem at a concrete state. -/
theorem tick_timers_spec_witness :
    ({ chip8Zero with delay_timer := 3, sound_timer := 1 } : Chip8).tick_timers.1.delay_timer =
      ({ chip8Zero with delay_timer := 3, sound_timer := 1 } : Chip8).delay_timer - 1 ∧
    ({ chip8Zero with delay_timer := 3, sound_timer := 1 } : Chip8).tick_timers.1.sound_timer =
      ({ chip8Zero with delay_timer := 3, sound_timer := 1 } : Chip8).sound_timer - 1 ∧
    (({ chip8Zero with delay_timer := 3, sound_timer := 1 } : Chip8).tick_timers.2 =
        Signal.soundAudio ↔
      0 < ({ chip8Zero with delay_timer := 3, sound_timer := 1 } : Chip8).sound_timer) :=
  tick_timers_spec { chip8Zero with delay_timer := 3, sound_timer := 1 }

/-! ## C5: 7XNN (ADD immediate) -/

/-- C5: for every register index `x` (including `x = 0xF`) and immediate
`nn`, executing `7xnn` sets `Vx := (Vx + nn) mod 256` and modifies no
register other than `Vx`; in particular no carry flag is written (for
`x ≠ 0xF` the register `VF` is untouched). -/
theorem exec_7xnn (s : Chip8) (instr : Instruction) (x nn rb rk : Nat)
    (hO : instr.get_o = 0x7) (hX : instr.get_x = x) (hNN : instr.get_nn = nn) :
    ((s.exec_instruction instr rb rk).map (fun p => p.1.v_reg x) =
      some ((s.v_reg x + nn) % 256)) ∧
    (∀ j, j ≠ x →
      (s.exec_instruction instr rb rk).map (fun p => p.1.v_reg j) = some (s.v_reg j)) := by
  constructor
  · simp [Chip8.exec_instruction, Chip8.exec_arms, hO, hX, hNN, updFn]
  · intro j hj
    simp [Chip8.exec_instruction, Chip8.exec_arms, hO, hX, hNN, updFn, hj]

/-- Witness for C5: `V0 = 0xFF`, `nn = 0x01` wraps to 0 and register 1 is
untouched (instruction word 0x7001). -/
theorem exec_7xnn_witness :
    ((({ chip8Zero with v_reg := updFn chip8Zero.v_reg 0 0xFF } : Chip8).exec_instruction
        ⟨0x7001⟩ 0 0).map (fun p => p.1.v_reg 0) =
      some ((({ chip8Zero with v_reg := updFn chip8Zero.v_reg 0 0xFF } : Chip8).v_reg 0 +
        0x01) % 256)) ∧
    ((({ chip8Zero with v_reg := updFn chip8Zero.v_reg 0 0xFF } : Chip8).exec_instruction
        ⟨0x7001⟩ 0 0).map (fun p => p.1.v_reg 1) =
      some (({ chip8Zero with v_reg := updFn chip8Zero.v_reg 0 0xFF } : Chip8).v_reg 1)) :=
  ⟨(exec_7xnn _ ⟨0x7001⟩ 0 0x01 0 0 (by decide) (by decide) (by decide)).1,
   (exec_7xnn _ ⟨0x7001⟩ 0 0x01 0 0 (by decide) (by decide) (by decide)).2 1 (by decide)⟩

/-! ## C7: 8XY4 (register ADD with carry) -/

/-- C7: executing `8xy4` stores the unsigned sum of the two operand
registers mod 256 in `Vx` and then overwrites `VF` with the carry flag
(1 iff the sum exceeds 255) — the carry write comes second, so it wins
even when `x = 0xF`; registers other than `Vx` and `VF` are untouched, and
the operands are read before either write (so `y = 0xF` is also covered). -/
theorem exec_8xy4 (s : Chip8) (instr : Instruction) (x y rb rk : Nat)
    (hO : instr.get_o = 0x8) (hX : instr.get_x = x) (hY : instr.get_y = y)
    (hN : instr.get_n = 0x4) :
    ((s.exec_instruction instr rb rk).map (fun p => p.1.v_reg 0xF) =
      some (if 255 < s.v_reg x + s.v_reg y then 1 else 0)) ∧
    (x ≠ 0xF →
      (s.exec_instruction instr rb rk).map (fun p => p.1.v_reg x) =
        some ((s.v_reg x + s.v_reg y) % 256)) ∧
    (∀ j, j ≠ x → j ≠ 0xF →
      (s.exec_instruction instr rb rk).map (fun p => p.1.v_reg j) = some (s.v_reg j)) := by
  refine ⟨?_, ?_, ?_⟩
  · simp [Chip8.exec_instruction, Chip8.exec_arms, hO, hX, hY, hN, updFn]
  · intro hx
    simp [Chip8.exec_instruction, Chip8.exec_arms, hO, hX, hY, hN, updFn, hx]
  · intro j hjx hjF
    simp [Chip8.exec_instruction, Chip8.exec_arms, hO, hX, hY, hN, updFn, hjx, hjF]

/-- Witness for C7: `V0 = 0xFF`, `V1 = 0x01` (instruction word 0x8014):
sum 256 wraps to 0 with carry 1. -/
theorem exec_8xy4_witness :
    ((({ chip8Zero with v_reg := updFn (updFn chip8Zero.v_reg 0 0xFF) 1 0x01 } :
        Chip8).exec_instruction ⟨0x8014⟩ 0 0).map (fun p => p.1.v_reg 0xF) =
      some (if 255 < ({ chip8Zero with
          v_reg := updFn (updFn chip8Zero.v_reg 0 0xFF) 1 0x01 } : Chip8).v_reg 0 +
        ({ chip8Zero with v_reg := updFn (updFn chip8Zero.v_reg 0 0xFF) 1 0x01 } :
          Chip8).v_reg 1 then 1 else 0)) ∧
    ((({ chip8Zero with v_reg := updFn (updFn chip8Zero.v_reg 0 0xFF) 1 0x01 } :
        Chip8).exec_instruction ⟨0x8014⟩ 0 0).map (fun p => p.1.v_reg 0) =
      some ((({ chip8Zero with
          v_reg := updFn (updFn chip8Zero.v_reg 0 0xFF) 1 0x01 } : Chip8).v_reg 0 +
        ({ chip8Zero with v_reg := updFn (updFn chip8Zero.v_reg 0 0xFF) 1 0x01 } :
          Chip8).v_reg 1) % 256)) ∧
    ((({ chip8Zero with v_reg := updFn (updFn chip8Zero.v_reg 0 0xFF) 1 0x01 } :
        Chip8).exec_instruction ⟨0x8014⟩ 0 0).map (fun p => p.1.v_reg 2) =
      some (({ chip8Zero with
        v_reg := updFn (updFn chip8Zero.v_reg 0 0xFF) 1 0x01 } : Chip8).v_reg 2)) :=
  ⟨(exec_8xy4 _ ⟨0x8014⟩ 0 1 0 0 (by decide) (by decide) (by decide) (by decide)).1,
   (exec_8xy4 _ ⟨0x8014⟩ 0 1 0 0 (by decide) (by decide) (by decide) (by decide)).2.1
     (by decide),
   (exec_8xy4 _ ⟨0x8014⟩ 0 1 0 0 (by decide) (by decide) (by decide) (by decide)).2.2 2
     (by decide) (by decide)⟩

/-! ## C3: 00EE (return) -/

/-- C3 counterexample: with return address 0x300 on the stack, executing
`00EE` leaves PC = 0x302, not the popped address 0x300 — the `00EE` arm
does not clear `incr_pc`, so the automatic advance still applies. -/
theorem exec_00ee_counterexample :
    (({ chip8Zero with pc := 0x400, stack := [0x300] } : Chip8).exec_instruction
        ⟨0x00EE⟩ 0 0).map (fun p => p.1.pc) = some 0x302 ∧
    ¬ ((({ chip8Zero with pc := 0x400, stack := [0x300] } : Chip8).exec_instruction
        ⟨0x00EE⟩ 0 0).map (fun p => p.1.pc) = some 0x300) := by
  constructor
  · rfl
  · decide

/-- C3 (amended): `00EE` pops the top return address `r` from the call
stack and is fatal when the stack is empty; but the automatic PC advance is
NOT suppressed for returns, so the final PC is `r + 2` (the matching
`2NNN` pushed the address of the CALL instruction itself, so `r + 2` is
the instruction after the call). -/
theorem exec_00ee (s : Chip8) (instr : Instruction) (rb rk : Nat)
    (hO : instr.get_o = 0x0) (hX : instr.get_x = 0x0) (hY : instr.get_y = 0xE)
    (hN : instr.get_n = 0xE) :
    (s.stack = [] → s.exec_instruction instr rb rk = none) ∧
    (∀ r rest, s.stack = r :: rest →
      (s.exec_instruction instr rb rk).map (fun p => (p.1.pc, p.1.stack)) =
        some ((r + 2) % 65536, rest)) := by
  constructor
  · intro h
    simp [Chip8.exec_instruction, Chip8.exec_arms, hO, hX, hY, hN, h]
  · intro r rest h
    simp [Chip8.exec_instruction, Chip8.exec_arms, hO, hX, hY, hN, h, PC_STEP]

/-- Witness for C3's amended theorem at a concrete state (stack `[0x300]`). -/
theorem exec_00ee_witness :
    (({ chip8Zero with pc := 0x400, stack := [0x300] } : Chip8).exec_instruction
        ⟨0x00EE⟩ 0 0).map (fun p => (p.1.pc, p.1.stack)) = some ((0x300 + 2) % 65536, []) :=
  (exec_00ee _ ⟨0x00EE⟩ 0 0 (by decide) (by decide) (by decide) (by decide)).2 0x300 [] rfl

/-! ## C4: FX0A (wait for key) -/

theorem position_eq_none (l : List Bool)
    (h : ∀ i, i < l.length → l.getD i false = false) : position l = none := by
  induction l with
  | nil => rfl
  | cons b bs ih =>
    have hb : b = false := by simpa using h 0 (by simp)
    subst hb
    rw [show position (false :: bs) = (position bs).map (· + 1) from rfl]
    rw [ih (fun i hi => by simpa using h (i + 1) (by simpa using hi))]
    rfl

theorem position_eq_some (l : List Bool) (j : Nat) (hj : j < l.length)
    (hfirst : ∀ i, i < j → l.getD i false = false) (htrue : l.getD j false = true) :
    position l = some j := by
  induction l generalizing j with
  | nil => simp at hj
  | cons b bs ih =>
    cases j with
    | zero =>
      have hb : b = true := by simpa using htrue
      subst hb
      simp [position]
    | succ j =>
      have hb : b = false := by simpa using hfirst 0 (Nat.succ_pos _)
      subst hb
      rw [show position (false :: bs) = (position bs).map (· + 1) from rfl]
      rw [ih j (by simpa using hj) (fun i hi => by simpa using hfirst (i + 1) (by omega))
        (by simpa using htrue)]
      rfl

theorem keyList_drop_getD (s : Chip8) (rk i : Nat) (h : rk + i < 16) :
    ((keyList s).drop rk).getD i false = s.input_bus (rk + i) := by
  have hlen : rk + i < (keyList s).length := by simpa [keyList, NUM_KEYS] using h
  rw [List.getD_eq_getElem?_getD, List.getElem?_drop]
  rw [List.getElem?_eq_getElem hlen]
  simp [keyList, NUM_KEYS, h]

theorem keyList_drop_length (s : Chip8) (rk : Nat) :
    ((keyList s).drop rk).length = 16 - rk := by
  simp [keyList, NUM_KEYS]

/-- C4 counterexample: key 0 is down (so "at least one key bit is down"),
but with the random skip `randKey = 1` the scan
`input_bus.iter().skip(1).position(..)` finds nothing, so the instruction
blocks and PC does not advance — refuting "for every state in which at
least one key bit is down, executing Fx0A sets Vx … and advances PC by
exactly 2". -/
theorem exec_fx0a_counterexample :
    (({ chip8Zero with input_bus := fun k => decide (k = 0) } : Chip8).input_bus 0 = true) ∧
    (({ chip8Zero with input_bus := fun k => decide (k = 0) } : Chip8).exec_instruction
        ⟨0xF00A⟩ 0 1).map (fun p => p.1.pc) = some 0x200 ∧
    ¬ ((({ chip8Zero with input_bus := fun k => decide (k = 0) } : Chip8).exec_instruction
        ⟨0xF00A⟩ 0 1).map (fun p => p.1.pc) = some 0x202) := by
  refine ⟨by decide, by decide, by decide⟩

/-- C4 (amended): executing `Fx0A` with random skip `randKey`:
(a) if no key with index in `[randKey, 16)` is down — in particular if no
key at all is down — the machine state is left completely unchanged (PC
and all registers included), so the same instruction re-executes next
cycle; (b) if `k0` is the lowest down-key index in `[randKey, 16)`, then
`Vx := k0` and PC advances by exactly 2. -/
theorem exec_fx0a (s : Chip8) (instr : Instruction) (x rb rk : Nat)
    (hO : instr.get_o = 0xF) (hX : instr.get_x = x) (hY : instr.get_y = 0x0)
    (hN : instr.get_n = 0xA) :
    ((∀ k, rk ≤ k → k < 16 → s.input_bus k = false) →
      s.exec_instruction instr rb rk = some (s, Signal.none)) ∧
    (∀ k0, rk ≤ k0 → k0 < 16 → s.input_bus k0 = true →
      (∀ j, rk ≤ j → j < k0 → s.input_bus j = false) →
      ((s.exec_instruction instr rb rk).map (fun p => (p.1.pc, p.1.v_reg x)) =
        some ((s.pc + 2) % 65536, k0)) ∧
      (∀ j, j ≠ x →
        (s.exec_instruction instr rb rk).map (fun p => p.1.v_reg j) = some (s.v_reg j))) := by
  constructor
  · intro h
    have hpos : position ((keyList s).drop rk) = none := by
      apply position_eq_none
      intro i hi
      rw [keyList_drop_length] at hi
      rw [keyList_drop_getD s rk i (by omega)]
      exact h (rk + i) (by omega) (by omega)
    simp [Chip8.exec_instruction, Chip8.exec_arms, hO, hX, hY, hN, hpos]
  · intro k0 hrk hk0 hdown hleast
    have hpos : position ((keyList s).drop rk) = some (k0 - rk) := by
      apply position_eq_some
      · rw [keyList_drop_length]; omega
      · intro i hi
        rw [keyList_drop_getD s rk i (by omega)]
        exact hleast (rk + i) (by omega) (by omega)
      · rw [keyList_drop_getD s rk (k0 - rk) (by omega)]
        rw [show rk + (k0 - rk) = k0 by omega]
        exact hdown
    have hvx : (rk + (k0 - rk)) % 256 = k0 := by omega
    constructor
    · simp [Chip8.exec_instruction, Chip8.exec_arms, hO, hX, hY, hN, hpos, updFn, hvx,
        PC_STEP]
    · intro j hj
      simp [Chip8.exec_instruction, Chip8.exec_arms, hO, hX, hY, hN, hpos, updFn, hj]

/-- Witness for C4's amended theorem: key 3 down, `randKey = 0`; part (b)
applies with `k0 = 3`: PC advances from 0x200 to 0x202 and `V0 = 3`. -/
theorem exec_fx0a_witness :
    ((({ chip8Zero with input_bus := fun k => decide (k = 3) } : Chip8).exec_instruction
        ⟨0xF00A⟩ 0 0).map (fun p => (p.1.pc, p.1.v_reg 0)) =
      some ((({ chip8Zero with input_bus := fun k => decide (k = 3) } : Chip8).pc + 2) % 65536,
        3)) ∧
    ((({ chip8Zero with input_bus := fun k => decide (k = 3) } : Chip8).exec_instruction
        ⟨0xF00A⟩ 0 0).map (fun p => p.1.v_reg 1) =
      some (({ chip8Zero with input_bus := fun k => decide (k = 3) } : Chip8).v_reg 1)) :=
  ⟨((exec_fx0a _ ⟨0xF00A⟩ 0 0 0 (by decide) (by decide) (by decide) (by decide)).2
      3 (by decide) (by decide) (by decide) (fun j h1 h2 => by simp; omega)).1,
   ((exec_fx0a _ ⟨0xF00A⟩ 0 0 0 (by decide) (by decide) (by decide) (by decide)).2
      3 (by decide) (by decide) (by decide) (fun j h1 h2 => by simp; omega)).2 1 (by decide)⟩

/-! ## C10: memory-block instructions FX33 / FX55 / FX65 -/

theorem storeRegs_eq_none_iff :
    ∀ (offs : List Nat) (s : Chip8) (base : Nat),
      storeRegs base offs s = none ↔ ∃ o ∈ offs, ¬ base + o < RAM_SIZE := by
  intro offs
  induction offs with
  | nil => intro s base; simp [storeRegs]
  | cons o os ih =>
    intro s base
    by_cases h : base + o < RAM_SIZE
    · rw [show storeRegs base (o :: os) s =
          storeRegs base os { s with memory := updFn s.memory (base + o) (s.v_reg o) } by
        simp [storeRegs, memWrite, h]]
      rw [ih]
      simp [h]
    · rw [show storeRegs base (o :: os) s = none by simp [storeRegs, memWrite, h]]
      simp
      exact Or.inl (by omega)

theorem loadRegs_eq_none_iff :
    ∀ (offs : List Nat) (s : Chip8) (base : Nat),
      loadRegs base offs s = none ↔ ∃ o ∈ offs, ¬ base + o < RAM_SIZE := by
  intro offs
  induction offs with
  | nil => intro s base; simp [loadRegs]
  | cons o os ih =>
    intro s base
    by_cases h : base + o < RAM_SIZE
    · rw [show loadRegs base (o :: os) s =
          loadRegs base os { s with v_reg := updFn s.v_reg o (s.memory (base + o)) } by
        simp [loadRegs, memRead, h]]
      rw [ih]
      simp [h]
    · rw [show loadRegs base (o :: os) s = none by simp [loadRegs, memRead, h]]
      simp
      exact Or.inl (by omega)

theorem exists_range_succ_bound (base x : Nat) :
    (∃ o ∈ List.range (x + 1), ¬ base + o < RAM_SIZE) ↔ 0xFFF < base + x := by
  simp only [List.mem_range, RAM_SIZE]
  constructor
  · rintro ⟨o, ho, hlt⟩; omega
  · intro h; exact ⟨x, by omega, by omega⟩

/-- C10: `exec_instruction` performs no bounds check against `I` for the
memory-block instructions.  `Fx33` accesses `memory[I .. I+2]` and aborts
with an out-of-bounds panic exactly when `I + 2 > 0xFFF`; `Fx55`/`Fx65`
access `memory[I .. I+x]` inclusive and abort exactly when
`I + x > 0xFFF`; when the highest accessed address is at most `0xFFF`
every access is in bounds and no panic occurs. -/
theorem exec_mem_block_bounds (s : Chip8) (i33 i55 i65 : Instruction) (x rb rk : Nat)
    (h33o : i33.get_o = 0xF) (h33y : i33.get_y = 0x3) (h33n : i33.get_n = 0x3)
    (h55o : i55.get_o = 0xF) (h55x : i55.get_x = x) (h55y : i55.get_y = 0x5)
    (h55n : i55.get_n = 0x5)
    (h65o : i65.get_o = 0xF) (h65x : i65.get_x = x) (h65y : i65.get_y = 0x6)
    (h65n : i65.get_n = 0x5) :
    (s.exec_instruction i33 rb rk = none ↔ 0xFFF < s.i_reg + 2) ∧
    (s.exec_instruction i55 rb rk = none ↔ 0xFFF < s.i_reg + x) ∧
    (s.exec_instruction i65 rb rk = none ↔ 0xFFF < s.i_reg + x) := by
  refine ⟨?_, ?_, ?_⟩
  · by_cases h1 : s.i_reg < RAM_SIZE <;> by_cases h2 : s.i_reg + 1 < RAM_SIZE <;>
      by_cases h3 : s.i_reg + 2 < RAM_SIZE <;>
      simp [Chip8.exec_instruction, Chip8.exec_arms, h33o, h33y, h33n,
        memWrite, h1, h2, h3, RAM_SIZE] at * <;> omega
  · have := storeRegs_eq_none_iff (List.range (x + 1)) s s.i_reg
    rw [exists_range_succ_bound] at this
    simp [Chip8.exec_instruction, Chip8.exec_arms, h55o, h55x, h55y, h55n]
    rw [← this]
  · have := loadRegs_eq_none_iff (List.range (x + 1)) s s.i_reg
    rw [exists_range_succ_bound] at this
    simp [Chip8.exec_instruction, Chip8.exec_arms, h65o, h65x, h65y, h65n]
    rw [← this]

/-- Witness for C10 at `I = 0xFFE`, `x = 5`: `Fx33` (needs `I+2 = 0x1000`)
and `F555`/`F565` (need `I+5`) all abort; the iffs are exercised on their
true side. -/
theorem exec_mem_block_bounds_witness :
    ((({ chip8Zero with i_reg := 0xFFE } : Chip8).exec_instruction ⟨0xF533⟩ 0 0 = none ↔
        0xFFF < ({ chip8Zero with i_reg := 0xFFE } : Chip8).i_reg + 2)) ∧
    ((({ chip8Zero with i_reg := 0xFFE } : Chip8).exec_instruction ⟨0xF555⟩ 0 0 = none ↔
        0xFFF < ({ chip8Zero with i_reg := 0xFFE } : Chip8).i_reg + 5)) ∧
    ((({ chip8Zero with i_reg := 0xFFE } : Chip8).exec_instruction ⟨0xF565⟩ 0 0 = none ↔
        0xFFF < ({ chip8Zero with i_reg := 0xFFE } : Chip8).i_reg + 5)) :=
  exec_mem_block_bounds { chip8Zero with i_reg := 0xFFE } ⟨0xF533⟩ ⟨0xF555⟩ ⟨0xF565⟩ 5 0 0
    (by decide) (by decide) (by decide) (by decide) (by decide) (by decide) (by decide)
    (by decide) (by decide) (by decide) (by decide)

/-! ## C6: DXYN drawn twice

Plan: a draw is a left fold over the (index, bit) pair list; its effect on
the display is an XOR with the per-index parity `maskOf`, and—because a
`DXYN` sprite has at most 15 rows, so every drawn (row, column) pair is
distinct—its collision flag is an `any` over the pairs.  Drawing twice
therefore XORs every pixel twice (restoring the display), and the second
draw collides exactly on the set sprite bits whose pixel was clear before
the first draw (the first draw turned exactly those on). -/

theorem list_any_congr {α : Type} (l : List α) (f g : α → Bool)
    (h : ∀ a ∈ l, f a = g a) : l.any f = l.any g := by
  induction l with
  | nil => rfl
  | cons a as ih =>
    simp only [List.any_cons, h a (by simp)]
    rw [ih (fun b hb => h b (by simp [hb]))]

theorem drawRun_fst_apply :
    ∀ (ps : List (Nat × Bool)) (d : Nat → Bool) (vf : Bool) (i : Nat),
      (drawRun ps (d, vf)).1 i = xor (d i) (maskOf ps i) := by
  intro ps
  induction ps with
  | nil => intro d vf i; simp [drawRun, maskOf]
  | cons p ps ih =>
    intro d vf i
    rw [show drawRun (p :: ps) (d, vf) =
        drawRun ps (updFn d p.1 (xor (d p.1) p.2), vf || (d p.1 && p.2)) from rfl]
    rw [ih]
    rw [show maskOf (p :: ps) i =
        if p.1 = i then xor p.2 (maskOf ps i) else maskOf ps i from rfl]
    by_cases hpi : i = p.1
    · subst hpi
      simp [updFn, Bool.xor_assoc]
    · simp [updFn, hpi, Ne.symm hpi]

theorem maskOf_eq_false (ps : List (Nat × Bool)) (i : Nat)
    (h : ∀ p ∈ ps, p.1 ≠ i) : maskOf ps i = false := by
  induction ps with
  | nil => rfl
  | cons p ps ih =>
    rw [show maskOf (p :: ps) i =
        if p.1 = i then xor p.2 (maskOf ps i) else maskOf ps i from rfl]
    rw [if_neg (h p (by simp))]
    exact ih (fun q hq => h q (by simp [hq]))

theorem maskOf_mem_nodup (ps : List (Nat × Bool)) (p : Nat × Bool)
    (hmem : p ∈ ps) (hnod : (ps.map Prod.fst).Nodup) : maskOf ps p.1 = p.2 := by
  induction ps with
  | nil => simp at hmem
  | cons q qs ih =>
    rw [List.map_cons, List.nodup_cons] at hnod
    rcases List.mem_cons.mp hmem with heq | hmem'
    · subst heq
      rw [show maskOf (p :: qs) p.1 =
          if p.1 = p.1 then xor p.2 (maskOf qs p.1) else maskOf qs p.1 from rfl]
      rw [if_pos rfl]
      rw [maskOf_eq_false qs p.1 ?_]
      · simp
      · intro r hr hre
        exact hnod.1 (by rw [← hre]; exact List.mem_map_of_mem Prod.fst hr)
    · have hq1 : q.1 ≠ p.1 := by
        intro he
        exact hnod.1 (by rw [he]; exact List.mem_map_of_mem Prod.fst hmem')
      rw [show maskOf (q :: qs) p.1 =
          if q.1 = p.1 then xor q.2 (maskOf qs p.1) else maskOf qs p.1 from rfl]
      rw [if_neg hq1]
      exact ih hmem' hnod.2

theorem drawRun_snd_nodup :
    ∀ (ps : List (Nat × Bool)) (d : Nat → Bool) (vf : Bool),
      (ps.map Prod.fst).Nodup →
      (drawRun ps (d, vf)).2 = (vf || ps.any (fun p => d p.1 && p.2)) := by
  intro ps
  induction ps with
  | nil => intro d vf _; simp [drawRun]
  | cons p ps ih =>
    intro d vf hnod
    rw [List.map_cons, List.nodup_cons] at hnod
    rw [show drawRun (p :: ps) (d, vf) =
        drawRun ps (updFn d p.1 (xor (d p.1) p.2), vf || (d p.1 && p.2)) from rfl]
    rw [ih _ _ hnod.2]
    have hcongr : ps.any (fun q => updFn d p.1 (xor (d p.1) p.2) q.1 && q.2) =
        ps.any (fun q => d q.1 && q.2) := by
      apply list_any_congr
      intro q hq
      have hne : q.1 ≠ p.1 := by
        intro he
        exact hnod.1 (by rw [← he]; exact List.mem_map_of_mem Prod.fst hq)
      simp [updFn, hne]
    rw [hcongr]
    simp [List.any_cons, Bool.or_assoc]

theorem drawRun_involution (ps : List (Nat × Bool)) (d : Nat → Bool) (vf1 vf2 : Bool)
    (i : Nat) : (drawRun ps ((drawRun ps (d, vf1)).1, vf2)).1 i = d i := by
  rw [drawRun_fst_apply, drawRun_fst_apply]
  cases hd : d i <;> cases hm : maskOf ps i <;> rfl

theorem drawRun_second_vf (ps : List (Nat × Bool)) (d : Nat → Bool) (vf0 : Bool)
    (hnod : (ps.map Prod.fst).Nodup) :
    (drawRun ps ((drawRun ps (d, vf0)).1, false)).2 =
      ps.any (fun p => p.2 && !(d p.1)) := by
  rw [drawRun_snd_nodup _ _ _ hnod, Bool.false_or]
  apply list_any_congr
  intro p hp
  rw [drawRun_fst_apply, maskOf_mem_nodup ps p hp hnod]
  cases hd : d p.1 <;> cases hb : p.2 <;> rfl

theorem rowPairs_map_fst (b cx r : Nat) :
    (rowPairs b cx r).map Prod.fst =
      [r * 64 + (cx + 0) % 64, r * 64 + (cx + 1) % 64, r * 64 + (cx + 2) % 64,
       r * 64 + (cx + 3) % 64, r * 64 + (cx + 4) % 64, r * 64 + (cx + 5) % 64,
       r * 64 + (cx + 6) % 64, r * 64 + (cx + 7) % 64] := rfl

theorem mem_rowPairs_fst (b cx r j : Nat)
    (h : j ∈ (rowPairs b cx r).map Prod.fst) :
    ∃ dx, dx < 8 ∧ j = r * 64 + (cx + dx) % 64 := by
  rw [rowPairs_map_fst] at h
  simp only [List.mem_cons, List.not_mem_nil, or_false] at h
  rcases h with h | h | h | h | h | h | h | h
  exacts [⟨0, by omega, h⟩, ⟨1, by omega, h⟩, ⟨2, by omega, h⟩, ⟨3, by omega, h⟩,
    ⟨4, by omega, h⟩, ⟨5, by omega, h⟩, ⟨6, by omega, h⟩, ⟨7, by omega, h⟩]

theorem rowPairs_fst_nodup (b cx r : Nat) : ((rowPairs b cx r).map Prod.fst).Nodup := by
  rw [rowPairs_map_fst]
  refine List.nodup_cons.mpr ⟨?_, List.nodup_cons.mpr ⟨?_, List.nodup_cons.mpr ⟨?_,
    List.nodup_cons.mpr ⟨?_, List.nodup_cons.mpr ⟨?_, List.nodup_cons.mpr ⟨?_,
    List.nodup_cons.mpr ⟨?_, List.nodup_singleton _⟩⟩⟩⟩⟩⟩⟩ <;>
    simp only [List.mem_cons, List.not_mem_nil, List.mem_singleton, or_false, not_or] <;>
    omega

theorem mem_spritePairs_fst :
    ∀ (bs : List Nat) (dy cx cy j : Nat),
      j ∈ (spritePairs bs dy cx cy).map Prod.fst →
      ∃ k, k < bs.length ∧ j / 64 = (cy + (dy + k)) % 32 := by
  intro bs
  induction bs with
  | nil =>
    intro dy cx cy j h
    simp [spritePairs] at h
  | cons b bs ih =>
    intro dy cx cy j h
    rw [show spritePairs (b :: bs) dy cx cy =
        rowPairs b cx ((cy + dy) % DISPLAY_HEIGHT) ++ spritePairs bs (dy + 1) cx cy from rfl,
      List.map_append] at h
    rcases List.mem_append.mp h with h | h
    · obtain ⟨dx, hdx, hj⟩ := mem_rowPairs_fst _ _ _ _ h
      simp only [DISPLAY_HEIGHT] at hj
      exact ⟨0, by simp, by omega⟩
    · obtain ⟨k, hk, hj⟩ := ih (dy + 1) cx cy j h
      exact ⟨k + 1, by simp; omega, by omega⟩

theorem spritePairs_fst_nodup :
    ∀ (bs : List Nat) (dy cx cy : Nat), bs.length + dy ≤ 32 →
      ((spritePairs bs dy cx cy).map Prod.fst).Nodup := by
  intro bs
  induction bs with
  | nil =>
    intro dy cx cy _
    simp [spritePairs]
  | cons b bs ih =>
    intro dy cx cy hlen
    simp only [List.length_cons] at hlen
    rw [show spritePairs (b :: bs) dy cx cy =
        rowPairs b cx ((cy + dy) % DISPLAY_HEIGHT) ++ spritePairs bs (dy + 1) cx cy from rfl,
      List.map_append, List.nodup_append]
    refine ⟨rowPairs_fst_nodup _ _ _, ih (dy + 1) cx cy (by omega), ?_⟩
    intro j hj1 hj2
    obtain ⟨dx, hdx, hj⟩ := mem_rowPairs_fst _ _ _ _ hj1
    obtain ⟨k, hk, hj2'⟩ := mem_spritePairs_fst bs (dy + 1) cx cy j hj2
    simp only [DISPLAY_HEIGHT] at hj
    omega

theorem drawnPairs_fst_nodup (s : Chip8) (instr : Instruction) :
    ((drawnPairs s instr).map Prod.fst).Nodup := by
  apply spritePairs_fst_nodup
  have := get_n_lt instr
  simp [spriteOf]
  omega

/-- Evaluation of the `DXYN` arm: under the slice bound, executing `Dxyn`
yields the folded display and collision flag and advances PC by 2. -/
theorem exec_dxyn_eq (s : Chip8) (instr : Instruction) (rb rk : Nat)
    (hO : instr.get_o = 0xD) (hbound : s.i_reg + instr.get_n ≤ RAM_SIZE) :
    s.exec_instruction instr rb rk = some ({ s with
      display_bus := (drawRun (drawnPairs s instr) (s.display_bus, false)).1,
      v_reg := updFn s.v_reg 0xF
        (if (drawRun (drawnPairs s instr) (s.display_bus, false)).2 then 1 else 0),
      pc := (s.pc + 2) % 65536 }, Signal.refreshDisplay) := by
  simp [Chip8.exec_instruction, Chip8.exec_arms, hO, hbound, drawnPairs, spriteOf, PC_STEP]

/-- C6 counterexample: sprite byte `0x80` at `I = 0`, drawn at (0,0) on a
display whose pixel 0 is already set.  The first draw collides and clears
the pixel; the second draw then sees a clear pixel, so VF after the second
draw is 0, not 1 (the display is still restored).  This refutes "VF equals
1 after the second draw" for arbitrary pre-draw displays. -/
theorem exec_dxyn_counterexample :
    ((({ chip8Zero with
        memory := fun a => if a = 0 then 0x80 else 0,
        display_bus := fun i => decide (i = 0) } : Chip8).exec_instruction ⟨0xD011⟩ 0 0).bind
      (fun r1 => (r1.1.exec_instruction ⟨0xD011⟩ 0 0).map
        (fun r2 => (r2.1.v_reg 0xF, r2.1.display_bus 0)))) = some (0, true) := by
  rfl

/-- C6 (amended): executing the same `Dxyn` twice in succession (with `I`,
`Vx`, `Vy` and the sprite bytes unchanged between the draws, which holds
automatically when `x ≠ 0xF` and `y ≠ 0xF`, since a draw writes only the
display, `VF` and `PC`) restores the display to its state before the first
draw; `VF` after the second draw equals 1 **iff some set sprite bit lands
on a pixel that was clear before the first draw** (in particular it is 1
when the sprite is nonzero and the covered display area was clear, but 0
e.g. for an all-zero sprite or when every set sprite bit covered an
already-set pixel). -/
theorem exec_dxyn_twice (s : Chip8) (instr : Instruction) (rb rk rb2 rk2 : Nat)
    (hO : instr.get_o = 0xD) (hxF : instr.get_x ≠ 0xF) (hyF : instr.get_y ≠ 0xF)
    (hbound : s.i_reg + instr.get_n ≤ RAM_SIZE) :
    (∀ i, ((s.exec_instruction instr rb rk).bind
        (fun r1 => (r1.1.exec_instruction instr rb2 rk2).map
          (fun r2 => r2.1.display_bus i))) = some (s.display_bus i)) ∧
    (((s.exec_instruction instr rb rk).bind
        (fun r1 => (r1.1.exec_instruction instr rb2 rk2).map
          (fun r2 => r2.1.v_reg 0xF))) =
      some (if (drawnPairs s instr).any (fun p => p.2 && !(s.display_bus p.1))
        then 1 else 0)) := by
  obtain ⟨s1, hs1, hs1disp, hs1v, hs1mem, hs1i⟩ :
      ∃ s1, s.exec_instruction instr rb rk = some (s1, Signal.refreshDisplay) ∧
        s1.display_bus = (drawRun (drawnPairs s instr) (s.display_bus, false)).1 ∧
        s1.v_reg = updFn s.v_reg 0xF
          (if (drawRun (drawnPairs s instr) (s.display_bus, false)).2 then 1 else 0) ∧
        s1.memory = s.memory ∧ s1.i_reg = s.i_reg :=
    ⟨_, exec_dxyn_eq s instr rb rk hO hbound, rfl, rfl, rfl, rfl⟩
  have hps1 : drawnPairs s1 instr = drawnPairs s instr := by
    unfold drawnPairs spriteOf
    rw [hs1mem, hs1i, hs1v]
    simp [updFn, hxF, hyF]
  have hbound1 : s1.i_reg + instr.get_n ≤ RAM_SIZE := by rw [hs1i]; exact hbound
  have h2 := exec_dxyn_eq s1 instr rb2 rk2 hO hbound1
  rw [hps1, hs1disp] at h2
  constructor
  · intro i
    rw [hs1]
    simp only [Option.some_bind]
    rw [h2]
    simp only [Option.map_some']
    exact congrArg some (drawRun_involution (drawnPairs s instr) s.display_bus false false i)
  · rw [hs1]
    simp only [Option.some_bind]
    rw [h2]
    simp only [Option.map_some']
    rw [drawRun_second_vf (drawnPairs s instr) s.display_bus false
      (drawnPairs_fst_nodup s instr)]
    simp [updFn]

/-- Witness for C6's amended theorem: sprite byte `0x80` at `I = 0` drawn
twice at (0,0) on the all-clear display (instruction word 0xD011); pixel 0
is checked restored, and VF reports the any-collision condition. -/
theorem exec_dxyn_twice_witness :
    (((({ chip8Zero with memory := fun a => if a = 0 then 0x80 else 0 } :
        Chip8).exec_instruction ⟨0xD011⟩ 0 0).bind
      (fun r1 => (r1.1.exec_instruction ⟨0xD011⟩ 0 0).map
        (fun r2 => r2.1.display_bus 0))) =
      some (({ chip8Zero with memory := fun a => if a = 0 then 0x80 else 0 } :
        Chip8).display_bus 0)) ∧
    (((({ chip8Zero with memory := fun a => if a = 0 then 0x80 else 0 } :
        Chip8).exec_instruction ⟨0xD011⟩ 0 0).bind
      (fun r1 => (r1.1.exec_instruction ⟨0xD011⟩ 0 0).map
        (fun r2 => r2.1.v_reg 0xF))) =
      some (if (drawnPairs
          ({ chip8Zero with memory := fun a => if a = 0 then 0x80 else 0 } : Chip8)
          ⟨0xD011⟩).any
        (fun p => p.2 && !(({ chip8Zero with
          memory := fun a => if a = 0 then 0x80 else 0 } : Chip8).display_bus p.1))
        then 1 else 0)) :=
  ⟨(exec_dxyn_twice _ ⟨0xD011⟩ 0 0 0 0 (by decide) (by decide) (by decide) (by decide)).1 0,
   (exec_dxyn_twice _ ⟨0xD011⟩ 0 0 0 0 (by decide) (by decide) (by decide) (by decide)).2⟩

end Chippity
